import Mathlib

/-
Shallow embedding of the Instance Registry and MCP configuration subsystem of
the claude-multi repository (src/config.ts and src/templates.ts).

The registry backing store (the config.json file) is modelled as a value of
type ConfigFile: absent, present with content that parses to a Config
document, or present with content that is not valid JSON.  JSON
serialization round-trips (JSON.stringify followed by JSON.parse yields an
equal document), so a file written by saveConfig is modelled directly by the
Config it holds.  Each operation is a function from the store state to a
result paired with the new store state; a thrown JS Error is an Except
error value.
-/

namespace ClaudeMulti

/-- Record type of one managed instance (interface Instance in config.ts). -/
structure Instance where
  name : String
  configDir : String
  binaryPath : String
  createdAt : String
deriving DecidableEq, Repr

/-- The persisted root document (interface Config in config.ts). -/
structure Config where
  instances : List Instance
  version : String
deriving DecidableEq, Repr

/-- State of the backing store file config.json. -/
inductive ConfigFile where
  | absent
  | valid (c : Config)
  | invalid
deriving DecidableEq, Repr

/-- Errors raised by the registry operations in config.ts.  ioError models a
JSON.parse throw in loadConfig; duplicateName models the duplicate-instance
throw in addInstance. -/
inductive RegError where
  | ioError
  | duplicateName (name : String)
deriving DecidableEq, Repr

/-- The default document synthesized by loadConfig when the store is absent. -/
def defaultConfig : Config := { instances := [], version := "1.0.0" }

/-- saveConfig writes the full document, overwriting prior content
(config.ts saveConfig). -/
def saveConfig (c : Config) (_store : ConfigFile) : ConfigFile := ConfigFile.valid c

/-- loadConfig (config.ts): if the file is absent, synthesize the default
document, persist it and return it; otherwise parse the content, throwing
on malformed JSON. -/
def loadConfig : ConfigFile → Except RegError Config × ConfigFile
  | ConfigFile.absent => (Except.ok defaultConfig, saveConfig defaultConfig ConfigFile.absent)
  | ConfigFile.valid c => (Except.ok c, ConfigFile.valid c)
  | ConfigFile.invalid => (Except.error RegError.ioError, ConfigFile.invalid)

/-- addInstance (config.ts): load, fail if a record with the same name
exists, otherwise append and save. -/
def addInstance (inst : Instance) (store : ConfigFile) :
    Except RegError Unit × ConfigFile :=
  match loadConfig store with
  | (Except.error e, s1) => (Except.error e, s1)
  | (Except.ok config, s1) =>
    match config.instances.find? (fun i => i.name == inst.name) with
    | some _ => (Except.error (RegError.duplicateName inst.name), s1)
    | none =>
      let config2 : Config := { config with instances := config.instances ++ [inst] }
      (Except.ok (), saveConfig config2 s1)

/-- removeInstance (config.ts): load, find the first record with matching
name; if none, return null without writing; otherwise splice it out, save,
and return the removed record. -/
def removeInstance (name : String) (store : ConfigFile) :
    Except RegError (Option Instance) × ConfigFile :=
  match loadConfig store with
  | (Except.error e, s1) => (Except.error e, s1)
  | (Except.ok config, s1) =>
    match config.instances.findIdx? (fun i => i.name == name) with
    | none => (Except.ok none, s1)
    | some idx =>
      let config2 : Config := { config with instances := config.instances.eraseIdx idx }
      (Except.ok config.instances[idx]?, saveConfig config2 s1)

/-- getInstance (config.ts): load, return the first record with matching
name, or null. -/
def getInstance (name : String) (store : ConfigFile) :
    Except RegError (Option Instance) × ConfigFile :=
  match loadConfig store with
  | (Except.error e, s1) => (Except.error e, s1)
  | (Except.ok config, s1) =>
    (Except.ok (config.instances.find? (fun i => i.name == name)), s1)

/-- listInstances (config.ts): load and return the full ordered sequence. -/
def listInstances (store : ConfigFile) :
    Except RegError (List Instance) × ConfigFile :=
  match loadConfig store with
  | (Except.error e, s1) => (Except.error e, s1)
  | (Except.ok config, s1) => (Except.ok config.instances, s1)

/-- One registry mutation, for stating the uniqueness invariant over
operation sequences. -/
inductive RegOp where
  | add (inst : Instance)
  | remove (name : String)

/-- Store state after one mutation. -/
def runOp (op : RegOp) (s : ConfigFile) : ConfigFile :=
  match op with
  | RegOp.add i => (addInstance i s).2
  | RegOp.remove n => (removeInstance n s).2

/-- Store state after a sequence of mutations. -/
def runOps (ops : List RegOp) (s : ConfigFile) : ConfigFile :=
  ops.foldl (fun s op => runOp op s) s

/-- The stored registry, whenever it parses, has pairwise distinct instance
names. -/
def storeNamesNodup : ConfigFile → Prop
  | ConfigFile.valid c => (c.instances.map Instance.name).Nodup
  | _ => True

theorem storeNamesNodup_add (inst : Instance) (s : ConfigFile)
    (h : storeNamesNodup s) : storeNamesNodup ((addInstance inst s).2) := by
  cases s with
  | absent =>
    simp [addInstance, loadConfig, defaultConfig, saveConfig, storeNamesNodup]
  | invalid =>
    simp [addInstance, loadConfig, storeNamesNodup]
  | valid c =>
    simp only [addInstance, loadConfig]
    cases hf : c.instances.find? (fun i => i.name == inst.name) with
    | some j => exact h
    | none =>
      simp only [saveConfig, storeNamesNodup] at *
      rw [List.map_append]
      apply List.Nodup.append h (List.nodup_singleton _)
      intro a ha hb
      simp only [List.map_cons, List.map_nil, List.mem_singleton] at hb
      subst hb
      rcases List.mem_map.mp ha with ⟨i, hi, hname⟩
      have := List.find?_eq_none.mp hf i hi
      simp only [beq_iff_eq] at this
      exact this hname

theorem storeNamesNodup_remove (name : String) (s : ConfigFile)
    (h : storeNamesNodup s) : storeNamesNodup ((removeInstance name s).2) := by
  cases s with
  | absent =>
    simp [removeInstance, loadConfig, defaultConfig, saveConfig, storeNamesNodup]
  | invalid =>
    simp [removeInstance, loadConfig, storeNamesNodup]
  | valid c =>
    simp only [removeInstance, loadConfig]
    cases hf : c.instances.findIdx? (fun i => i.name == name) with
    | none => exact h
    | some idx =>
      simp only [saveConfig, storeNamesNodup] at *
      exact h.sublist (List.Sublist.map _ (List.eraseIdx_sublist _ idx))

theorem storeNamesNodup_runOps (ops : List RegOp) (s : ConfigFile)
    (h : storeNamesNodup s) : storeNamesNodup (runOps ops s) := by
  induction ops generalizing s with
  | nil => exact h
  | cons op rest ih =>
    apply ih
    cases op with
    | add i => exact storeNamesNodup_add i s h
    | remove n => exact storeNamesNodup_remove n s h

/-- C1.  Name uniqueness invariant: from an empty registry (either the
absent store or the persisted empty document), any sequence of add and
remove operations leaves the stored registry free of duplicate names; and
an add whose name matches an existing record fails with the duplicate-name
error and leaves the stored registry unchanged. -/
theorem registry_name_uniqueness :
    (∀ (ops : List RegOp) (s0 : ConfigFile),
        s0 = ConfigFile.absent ∨ s0 = ConfigFile.valid defaultConfig →
        storeNamesNodup (runOps ops s0))
    ∧ (∀ (inst : Instance) (c : Config),
        (∃ j ∈ c.instances, j.name = inst.name) →
        addInstance inst (ConfigFile.valid c) =
          (Except.error (RegError.duplicateName inst.name), ConfigFile.valid c)) := by
  constructor
  · intro ops s0 h0
    apply storeNamesNodup_runOps
    rcases h0 with h | h <;> subst h <;> simp [storeNamesNodup, defaultConfig]
  · intro inst c hdup
    rcases hdup with ⟨j, hj, hname⟩
    simp only [addInstance, loadConfig]
    have : c.instances.find? (fun i => i.name == inst.name) ≠ none := by
      intro hnone
      have := List.find?_eq_none.mp hnone j hj
      simp only [beq_iff_eq] at this
      exact this hname
    cases hf : c.instances.find? (fun i => i.name == inst.name) with
    | none => exact absurd hf this
    | some k => rfl

/-- Witness for C1 at concrete inputs. -/
theorem registry_name_uniqueness_witness :
    storeNamesNodup (runOps
      [RegOp.add { name := "a", configDir := "", binaryPath := "", createdAt := "" },
       RegOp.add { name := "a", configDir := "x", binaryPath := "", createdAt := "" }]
      ConfigFile.absent)
    ∧ addInstance { name := "a", configDir := "x", binaryPath := "", createdAt := "" }
        (ConfigFile.valid { instances := [{ name := "a", configDir := "", binaryPath := "", createdAt := "" }], version := "1.0.0" }) =
      (Except.error (RegError.duplicateName "a"),
       ConfigFile.valid { instances := [{ name := "a", configDir := "", binaryPath := "", createdAt := "" }], version := "1.0.0" }) := by
  constructor
  · exact registry_name_uniqueness.1 _ ConfigFile.absent (Or.inl rfl)
  · exact registry_name_uniqueness.2 _ _
      ⟨{ name := "a", configDir := "", binaryPath := "", createdAt := "" },
       by simp, rfl⟩

theorem findIdx?_first_match {α : Type} (p : α → Bool) (pre : List α) (x : α)
    (post : List α) (hpre : ∀ y ∈ pre, p y = false) (hx : p x = true) :
    (pre ++ x :: post).findIdx? p = some pre.length := by
  induction pre with
  | nil => simp [List.findIdx?_cons, hx]
  | cons a rest ih =>
    have ha : p a = false := hpre a (List.mem_cons_self a rest)
    have hrest : ∀ y ∈ rest, p y = false := fun y hy => hpre y (List.mem_cons_of_mem a hy)
    simp [List.findIdx?_cons, ha, ih hrest]

theorem eraseIdx_at_length {α : Type} (pre : List α) (x : α) (post : List α) :
    (pre ++ x :: post).eraseIdx pre.length = pre ++ post := by
  induction pre with
  | nil => rfl
  | cons a rest ih => simp [List.eraseIdx, ih]

theorem getElem?_at_length {α : Type} (pre : List α) (x : α) (post : List α) :
    (pre ++ x :: post)[pre.length]? = some x := by
  induction pre with
  | nil => simp
  | cons a rest ih => simpa using ih

theorem find?_first_match {α : Type} (p : α → Bool) (pre : List α) (x : α)
    (post : List α) (hpre : ∀ y ∈ pre, p y = false) (hx : p x = true) :
    (pre ++ x :: post).find? p = some x := by
  induction pre with
  | nil => simp [List.find?_cons, hx]
  | cons a rest ih =>
    have ha : p a = false := hpre a (List.mem_cons_self a rest)
    have hrest : ∀ y ∈ rest, p y = false := fun y hy => hpre y (List.mem_cons_of_mem a hy)
    simp [List.find?_cons, ha, ih hrest]

/-- C7.  removeInstance: on a parsed registry, if no record matches the name
the not-found sentinel is returned without writing; if a match exists the
first matching record is removed, the relative order of the remaining
records is preserved, the result is saved, and the removed record is
returned. -/
theorem removeInstance_spec :
    (∀ (name : String) (c : Config),
        c.instances.find? (fun i => i.name == name) = none →
        removeInstance name (ConfigFile.valid c) = (Except.ok none, ConfigFile.valid c))
    ∧ (∀ (name : String) (c : Config) (pre : List Instance) (x : Instance)
        (post : List Instance),
        c.instances = pre ++ x :: post →
        x.name = name →
        (∀ y ∈ pre, y.name ≠ name) →
        removeInstance name (ConfigFile.valid c) =
          (Except.ok (some x), ConfigFile.valid { c with instances := pre ++ post })) := by
  constructor
  · intro name c hnone
    simp only [removeInstance, loadConfig]
    have : c.instances.findIdx? (fun i => i.name == name) = none := by
      rw [List.findIdx?_eq_none_iff]
      intro y hy
      have := List.find?_eq_none.mp hnone y hy
      simpa using this
    rw [this]
  · intro name c pre x post hsplit hx hpre
    simp only [removeInstance, loadConfig]
    have hfi : c.instances.findIdx? (fun i => i.name == name) = some pre.length := by
      rw [hsplit]
      apply findIdx?_first_match
      · intro y hy
        simpa using hpre y hy
      · simpa using hx
    rw [hfi]
    simp only [saveConfig, Prod.mk.injEq]
    constructor
    · rw [hsplit, getElem?_at_length]
    · rw [hsplit, eraseIdx_at_length]

/-- Witness for C7: removing B from the registry [A, B, C] returns B and
stores [A, C]. -/
theorem removeInstance_spec_witness :
    removeInstance "B" (ConfigFile.valid
        { instances :=
            [{ name := "A", configDir := "a", binaryPath := "pa", createdAt := "t" },
             { name := "B", configDir := "b", binaryPath := "pb", createdAt := "t" },
             { name := "C", configDir := "c", binaryPath := "pc", createdAt := "t" }],
          version := "1.0.0" }) =
      (Except.ok (some { name := "B", configDir := "b", binaryPath := "pb", createdAt := "t" }),
       ConfigFile.valid
        { instances :=
            [{ name := "A", configDir := "a", binaryPath := "pa", createdAt := "t" },
             { name := "C", configDir := "c", binaryPath := "pc", createdAt := "t" }],
          version := "1.0.0" }) := by
  exact removeInstance_spec.2 "B" _
    [{ name := "A", configDir := "a", binaryPath := "pa", createdAt := "t" }]
    { name := "B", configDir := "b", binaryPath := "pb", createdAt := "t" }
    [{ name := "C", configDir := "c", binaryPath := "pc", createdAt := "t" }]
    rfl rfl (by decide)

/-- C4 counterexample: getInstance is not free of persistence side effects
on every store state — on the absent store, the call lazily creates and
persists the default registry document, so the store contents change. -/
theorem getInstance_readonly_counterexample :
    (getInstance "x" ConfigFile.absent).2 = ConfigFile.valid defaultConfig
    ∧ ConfigFile.valid defaultConfig ≠ ConfigFile.absent := by
  refine ⟨rfl, ?_⟩
  intro h
  cases h

/-- C4 amended.  getInstance returns the first record whose name equals the
argument (or the sentinel if none); whenever the store file exists its
contents are unchanged by the call; when the store file is absent, the only
write is the lazy creation of the default empty registry performed by
load. -/
theorem getInstance_spec_amended :
    (∀ (name : String) (c : Config),
        getInstance name (ConfigFile.valid c) =
          (Except.ok (c.instances.find? (fun i => i.name == name)), ConfigFile.valid c))
    ∧ (∀ (name : String) (c : Config) (pre : List Instance) (x : Instance)
        (post : List Instance),
        c.instances = pre ++ x :: post →
        x.name = name →
        (∀ y ∈ pre, y.name ≠ name) →
        (getInstance name (ConfigFile.valid c)).1 = Except.ok (some x))
    ∧ (∀ name : String,
        getInstance name ConfigFile.invalid = (Except.error RegError.ioError, ConfigFile.invalid))
    ∧ (∀ name : String,
        getInstance name ConfigFile.absent = (Except.ok none, ConfigFile.valid defaultConfig)) := by
  refine ⟨fun name c => rfl, ?_, fun name => rfl, fun name => rfl⟩
  intro name c pre x post hsplit hx hpre
  simp only [getInstance, loadConfig]
  rw [hsplit, find?_first_match (fun i => i.name == name) pre x post
    (fun y hy => by simpa using hpre y hy) (by simpa using hx)]

/-- Witness for C4 amended at a concrete registry. -/
theorem getInstance_spec_amended_witness :
    (getInstance "B" (ConfigFile.valid
        { instances :=
            [{ name := "A", configDir := "a", binaryPath := "pa", createdAt := "t" },
             { name := "B", configDir := "b", binaryPath := "pb", createdAt := "t" }],
          version := "1.0.0" })).1 =
      Except.ok (some { name := "B", configDir := "b", binaryPath := "pb", createdAt := "t" }) := by
  exact getInstance_spec_amended.2.1 "B" _
    [{ name := "A", configDir := "a", binaryPath := "pa", createdAt := "t" }]
    { name := "B", configDir := "b", binaryPath := "pb", createdAt := "t" }
    [] rfl rfl (by decide)

/-- C8.  Lazy registry creation: a load on the absent store returns the
default document and persists exactly that document; a load on a store
whose content is not valid structured data fails with the IO error. -/
theorem loadConfig_lazy_creation :
    loadConfig ConfigFile.absent =
      (Except.ok { instances := [], version := "1.0.0" },
       ConfigFile.valid { instances := [], version := "1.0.0" })
    ∧ loadConfig ConfigFile.invalid =
      (Except.error RegError.ioError, ConfigFile.invalid) := by
  exact ⟨rfl, rfl⟩

/-
MCP configuration model (src/templates.ts).  Settings and MCP files hold
arbitrary JSON documents, modelled by the Json type below; a JS object is
an ordered association list of fields.  A configuration directory is
modelled by the files the MCP code reads and writes: settings.json and the
three standalone candidate files mcp.json, mcp-servers.json and
claude-mcp.json.  A file is either absent, present with well-formed JSON,
or present with content JSON.parse rejects.
-/

/-- JSON value model. -/
inductive Json where
  | null
  | bool (b : Bool)
  | num (n : Int)
  | str (s : String)
  | arr (xs : List Json)
  | obj (fields : List (String × Json))

/-- Field access on a parsed JSON value: a property read in JS yields a
value only when the receiver is an object with that key. -/
def getField (j : Json) (k : String) : Option Json :=
  match j with
  | Json.obj fields => fields.lookup k
  | _ => none

/-- The JS test `v && typeof v === "object"`: true exactly for objects and
arrays (null is falsy, primitives have other typeof tags). -/
def isTruthyObject : Json → Bool
  | Json.obj _ => true
  | Json.arr _ => true
  | _ => false

/-- Content of a file on disk, as seen through JSON.parse. -/
inductive FileData where
  | jsonData (j : Json)
  | malformed

/-- The files of one configuration directory that the MCP code touches. -/
structure ConfigDir where
  dirExists : Bool
  settings : Option FileData
  mcpJson : Option FileData
  mcpServersJson : Option FileData
  claudeMcpJson : Option FileData

/-- A freshly created (mkdir recursive) directory. -/
def emptyDir : ConfigDir :=
  { dirExists := true, settings := none, mcpJson := none,
    mcpServersJson := none, claudeMcpJson := none }

/-- The `if (!existsSync(dir)) await mkdir(dir)` step. -/
def ensureDir (d : ConfigDir) : ConfigDir :=
  if d.dirExists then d else emptyDir

/-- Replacement of one field entry by a property assignment, when the
entry carries the assigned key. -/
def upsertEntry (k : String) (v : Json) (p : String × Json) : String × Json :=
  if p.1 == k then (k, v) else p

/-- JS property assignment obj.k = v followed by serialization: replaces
the value in place when the key exists, otherwise appends the key at the
end (insertion order is preserved by JSON.stringify). -/
def objUpsert (fields : List (String × Json)) (k : String) (v : Json) :
    List (String × Json) :=
  if fields.any (fun p => p.1 == k) then fields.map (upsertEntry k v)
  else fields ++ [(k, v)]

/-- JS object spread of two objects, written as a fold of property
assignments of the right operand over the left operand. -/
def objMerge (a b : List (String × Json)) : List (String × Json) :=
  b.foldl (fun acc p => objUpsert acc p.1 p.2) a

/-- Fields of a JSON object.  Spreading a non-object value in the source
would enumerate its index properties; detection only ever hands objects or
arrays to the spread and the claims concern object-valued server maps. -/
def objFields : Json → List (String × Json)
  | Json.obj fields => fields
  | _ => []

/-- The mcpServers property of a detected configuration value. -/
def mcpServersOf (j : Json) : Json :=
  (getField j "mcpServers").getD Json.null

/-- One iteration of the standalone-candidate loop in
detectMcpConfigurations: an existing candidate file that parses and has a
truthy object mcpServers property yields the whole parsed object; a
missing file, a parse failure or a failed shape check moves on. -/
def candidateServers (f : Option FileData) : Option Json :=
  match f with
  | some (FileData.jsonData j) =>
    match getField j "mcpServers" with
    | some v => if isTruthyObject v then some j else none
    | none => none
  | _ => none

/-- The loop over ["mcp.json", "mcp-servers.json", "claude-mcp.json"] in
detectMcpConfigurations, in source order. -/
def detectFromFiles (d : ConfigDir) : Option Json :=
  match candidateServers d.mcpJson with
  | some j => some j
  | none =>
    match candidateServers d.mcpServersJson with
    | some j => some j
    | none => candidateServers d.claudeMcpJson

/-- detectMcpConfigurations (templates.ts): for a missing directory report
none; otherwise check settings.json first (wrapping its mcpServers value
in a fresh one-key object), falling through to the standalone candidates
on a missing file, parse failure, or failed shape check. -/
def detectMcpConfigurations (d : ConfigDir) : Option Json :=
  if d.dirExists then
    match d.settings with
    | some (FileData.jsonData s) =>
      match getField s "mcpServers" with
      | some v =>
        if isTruthyObject v then some (Json.obj [("mcpServers", v)])
        else detectFromFiles d
      | none => detectFromFiles d
    | _ => detectFromFiles d
  else none

/-- The value the settings.json branch of detection contributes, used to
state the candidate order. -/
def settingsGives (d : ConfigDir) : Option Json :=
  match d.settings with
  | some (FileData.jsonData s) =>
    match getField s "mcpServers" with
    | some v => if isTruthyObject v then some (Json.obj [("mcpServers", v)]) else none
    | none => none
  | _ => none

/-- A parse result on which the settings.mcpServers property assignment
throws a TypeError in the source (module code is strict mode): null and
the primitives.  Objects accept the assignment; arrays also accept it,
since an array is an extensible object — only serialization then drops
the non-index property. -/
def throwsOnAssign : Json → Bool
  | Json.null => true
  | Json.bool _ => true
  | Json.num _ => true
  | Json.str _ => true
  | _ => false

/-- writeMcpConfiguration (templates.ts): if settings.json exists and
parses to an object, set its mcpServers property and rewrite the file in
place.  If it parses to an array, the property assignment succeeds but
JSON.stringify serializes only the index properties: the file is
rewritten as the array and the configuration is silently dropped, with no
standalone file written.  If it parses to null or a primitive the
assignment throws and the catch falls back to the standalone mcp.json
file, as it does for a missing or unparseable settings.json. -/
def writeMcpConfiguration (target : ConfigDir) (mcpConfig : Json) : ConfigDir :=
  match target.settings with
  | some (FileData.jsonData (Json.obj fields)) =>
    { target with settings := some (FileData.jsonData
        (Json.obj (objUpsert fields "mcpServers" (mcpServersOf mcpConfig)))) }
  | some (FileData.jsonData (Json.arr xs)) =>
    { target with settings := some (FileData.jsonData (Json.arr xs)) }
  | some (FileData.jsonData _) =>
    { target with mcpJson := some (FileData.jsonData mcpConfig) }
  | some FileData.malformed =>
    { target with mcpJson := some (FileData.jsonData mcpConfig) }
  | none =>
    { target with mcpJson := some (FileData.jsonData mcpConfig) }

/-- Errors raised by the MCP copy operations (all thrown as Error in the
source; the spec taxonomy calls the first four NotFoundError). -/
inductive McpError where
  | noDefaultMcp
  | sourceInstanceNotFound (name : String)
  | targetInstanceNotFound (name : String)
  | noInstanceMcp (name : String)
  | registryIoError
deriving DecidableEq, Repr

/-- copyMcpServersFromDefault (templates.ts): detect the default map,
throw when there is none, create the target directory if missing, then
either merge with the target's own detected map (target entries spread
last, so they take precedence) or copy the default's configuration
directly; either result goes through writeMcpConfiguration. -/
def copyMcpServersFromDefault (defaultDir target : ConfigDir) :
    Except McpError ConfigDir :=
  match detectMcpConfigurations defaultDir with
  | none => Except.error McpError.noDefaultMcp
  | some mcpConfig =>
    let target1 := ensureDir target
    match detectMcpConfigurations target1 with
    | some existingMcpConfig =>
      let merged := Json.obj [("mcpServers",
        Json.obj (objMerge (objFields (mcpServersOf mcpConfig))
                           (objFields (mcpServersOf existingMcpConfig))))]
      Except.ok (writeMcpConfiguration target1 merged)
    | none => Except.ok (writeMcpConfiguration target1 mcpConfig)

/-- Combined state for the cross-instance copy: the registry store and the
configuration directory reachable at each configDir path. -/
structure World where
  store : ConfigFile
  dirs : String → ConfigDir

/-- copyMcpServersBetweenInstances (templates.ts): resolve both names via
getInstance, throw naming the missing side (source checked first), detect
the source map, throw when there is none, then write the source
configuration to the target directory through writeMcpConfiguration with
no merge. -/
def copyMcpServersBetweenInstances (sourceInstanceName targetInstanceName : String)
    (w : World) : Except McpError Unit × World :=
  match getInstance sourceInstanceName w.store with
  | (Except.error _, s1) => (Except.error McpError.registryIoError, { w with store := s1 })
  | (Except.ok sourceInstance, s1) =>
    match getInstance targetInstanceName s1 with
    | (Except.error _, s2) => (Except.error McpError.registryIoError, { w with store := s2 })
    | (Except.ok targetInstance, s2) =>
      let w2 : World := { w with store := s2 }
      match sourceInstance with
      | none => (Except.error (McpError.sourceInstanceNotFound sourceInstanceName), w2)
      | some src =>
        match targetInstance with
        | none => (Except.error (McpError.targetInstanceNotFound targetInstanceName), w2)
        | some tgt =>
          match detectMcpConfigurations (w2.dirs src.configDir) with
          | none => (Except.error (McpError.noInstanceMcp sourceInstanceName), w2)
          | some sourceMcpConfig =>
            (Except.ok (),
             { w2 with dirs := fun p =>
                 if p = tgt.configDir
                 then writeMcpConfiguration (w2.dirs tgt.configDir) sourceMcpConfig
                 else w2.dirs p })

theorem bool_eq_false_of_ne_true {b : Bool} (h : ¬ b = true) : b = false := by
  cases b
  · rfl
  · exact absurd rfl h

theorem lookup_cons {β : Type} (k : String) (p : String × β) (rest : List (String × β)) :
    List.lookup k (p :: rest) = if k == p.1 then some p.2 else List.lookup k rest := by
  rcases p with ⟨a, v⟩
  simp only [List.lookup]
  cases h : k == a <;> simp [h]

theorem upsertEntry_match (k : String) (v : Json) (p : String × Json) (h : p.1 = k) :
    upsertEntry k v p = (k, v) := by
  simp [upsertEntry, h]

theorem upsertEntry_skip (k : String) (v : Json) (p : String × Json) (h : p.1 ≠ k) :
    upsertEntry k v p = p := by
  simp [upsertEntry, beq_eq_false_iff_ne.mpr h]

theorem lookup_eq_none_of_not_any (fields : List (String × Json)) (k : String)
    (h : fields.any (fun p => p.1 == k) = false) : fields.lookup k = none := by
  induction fields with
  | nil => rfl
  | cons a rest ih =>
    simp only [List.any_cons, Bool.or_eq_false_iff] at h
    have ha : a.1 ≠ k := by
      intro he
      have := h.1
      simp [he] at this
    rw [lookup_cons, if_neg (by simp [beq_eq_false_iff_ne.mpr (fun he => ha he.symm)]),
      ih h.2]

theorem lookup_eq_none_of_not_mem_keys (fields : List (String × Json)) (k : String)
    (h : k ∉ fields.map Prod.fst) : fields.lookup k = none := by
  apply lookup_eq_none_of_not_any
  rw [List.any_eq_false]
  intro p hp hk
  exact h (List.mem_map.mpr ⟨p, hp, beq_iff_eq.mp hk⟩)

theorem lookup_map_upsert_self (fields : List (String × Json)) (k : String) (v : Json)
    (h : fields.any (fun p => p.1 == k) = true) :
    (fields.map (upsertEntry k v)).lookup k = some v := by
  induction fields with
  | nil => simp at h
  | cons a rest ih =>
    by_cases ha : a.1 = k
    · rw [List.map_cons, upsertEntry_match k v a ha, lookup_cons]
      simp
    · rw [List.map_cons, upsertEntry_skip k v a ha, lookup_cons,
        if_neg (by simp [beq_eq_false_iff_ne.mpr (fun he => ha he.symm)])]
      apply ih
      simp only [List.any_cons, beq_eq_false_iff_ne.mpr ha, Bool.false_or] at h
      exact h

theorem lookup_map_upsert_other (fields : List (String × Json)) (k k' : String) (v : Json)
    (h : k' ≠ k) :
    (fields.map (upsertEntry k v)).lookup k' = fields.lookup k' := by
  induction fields with
  | nil => rfl
  | cons a rest ih =>
    by_cases ha : a.1 = k
    · rw [List.map_cons, upsertEntry_match k v a ha, lookup_cons, lookup_cons,
        if_neg (by simp [beq_eq_false_iff_ne.mpr h]),
        if_neg (by simp [beq_eq_false_iff_ne.mpr (ha ▸ h)]), ih]
    · rw [List.map_cons, upsertEntry_skip k v a ha, lookup_cons, lookup_cons]
      by_cases hk : k' = a.1
      · rw [if_pos (by simp [hk]), if_pos (by simp [hk])]
      · rw [if_neg (by simp [beq_eq_false_iff_ne.mpr hk]),
          if_neg (by simp [beq_eq_false_iff_ne.mpr hk]), ih]

theorem lookup_append_single_self (fields : List (String × Json)) (k : String)
    (v : Json) (h : fields.lookup k = none) :
    (fields ++ [(k, v)]).lookup k = some v := by
  induction fields with
  | nil => simp [lookup_cons]
  | cons a rest ih =>
    rw [lookup_cons] at h
    by_cases hk : k = a.1
    · rw [if_pos (by simp [hk])] at h
      cases h
    · rw [if_neg (by simp [beq_eq_false_iff_ne.mpr hk])] at h
      rw [List.cons_append, lookup_cons, if_neg (by simp [beq_eq_false_iff_ne.mpr hk])]
      exact ih h

theorem lookup_append_single_other (fields : List (String × Json)) (k k' : String)
    (v : Json) (h : k' ≠ k) :
    (fields ++ [(k, v)]).lookup k' = fields.lookup k' := by
  induction fields with
  | nil => simp [lookup_cons, beq_eq_false_iff_ne.mpr h]
  | cons a rest ih =>
    rw [List.cons_append, lookup_cons, lookup_cons]
    by_cases hk : k' = a.1
    · rw [if_pos (by simp [hk]), if_pos (by simp [hk])]
    · rw [if_neg (by simp [beq_eq_false_iff_ne.mpr hk]),
        if_neg (by simp [beq_eq_false_iff_ne.mpr hk]), ih]

theorem any_eq_false_of_ne_true {fields : List (String × Json)} {k : String}
    (h : ¬ fields.any (fun p => p.1 == k) = true) :
    fields.any (fun p => p.1 == k) = false := by
  cases hx : fields.any (fun p => p.1 == k)
  · rfl
  · exact absurd hx h

theorem lookup_objUpsert_self (fields : List (String × Json)) (k : String) (v : Json) :
    (objUpsert fields k v).lookup k = some v := by
  unfold objUpsert
  by_cases h : fields.any (fun p => p.1 == k) = true
  · rw [if_pos h]
    exact lookup_map_upsert_self fields k v h
  · rw [if_neg h]
    exact lookup_append_single_self fields k v
      (lookup_eq_none_of_not_any fields k (any_eq_false_of_ne_true h))

theorem lookup_objUpsert_other (fields : List (String × Json)) (k k' : String)
    (v : Json) (h : k' ≠ k) :
    (objUpsert fields k v).lookup k' = fields.lookup k' := by
  unfold objUpsert
  by_cases hany : fields.any (fun p => p.1 == k) = true
  · rw [if_pos hany]
    exact lookup_map_upsert_other fields k k' v h
  · rw [if_neg hany]
    exact lookup_append_single_other fields k k' v h

theorem keys_map_upsert (fields : List (String × Json)) (k : String) (v : Json) :
    (fields.map (upsertEntry k v)).map Prod.fst = fields.map Prod.fst := by
  rw [List.map_map]
  apply List.map_congr_left
  intro p _
  by_cases hp : p.1 = k
  · simp [Function.comp, upsertEntry_match k v p hp, hp]
  · simp [Function.comp, upsertEntry_skip k v p hp]

theorem mem_keys_objUpsert (fields : List (String × Json)) (k k' : String) (v : Json) :
    k' ∈ (objUpsert fields k v).map Prod.fst ↔
      k' ∈ fields.map Prod.fst ∨ k' = k := by
  unfold objUpsert
  by_cases hany : fields.any (fun p => p.1 == k) = true
  · rw [if_pos hany, keys_map_upsert]
    constructor
    · exact Or.inl
    · rintro (h | h)
      · exact h
      · subst h
        rcases List.any_eq_true.mp hany with ⟨p, hp, hpk⟩
        exact List.mem_map.mpr ⟨p, hp, beq_iff_eq.mp hpk⟩
  · rw [if_neg hany]
    simp

theorem lookup_objMerge (a b : List (String × Json)) (hb : (b.map Prod.fst).Nodup)
    (k : String) :
    (objMerge a b).lookup k = (b.lookup k).orElse (fun _ => a.lookup k) := by
  induction b generalizing a with
  | nil => simp [objMerge]
  | cons p rest ih =>
    simp only [List.map_cons, List.nodup_cons] at hb
    have hmerge : objMerge a (p :: rest) = objMerge (objUpsert a p.1 p.2) rest := rfl
    rw [hmerge, ih _ hb.2, lookup_cons]
    by_cases hk : k = p.1
    · have hrest : rest.lookup k = none := by
        rw [hk]
        exact lookup_eq_none_of_not_mem_keys rest p.1 hb.1
      rw [if_pos (by simp [hk]), hrest, hk]
      simp [lookup_objUpsert_self]
    · rw [if_neg (by simp [beq_eq_false_iff_ne.mpr hk]),
        lookup_objUpsert_other a p.1 k p.2 hk]

theorem mem_keys_objMerge (a b : List (String × Json)) (k : String) :
    k ∈ (objMerge a b).map Prod.fst ↔
      k ∈ a.map Prod.fst ∨ k ∈ b.map Prod.fst := by
  induction b generalizing a with
  | nil => simp [objMerge]
  | cons p rest ih =>
    have hmerge : objMerge a (p :: rest) = objMerge (objUpsert a p.1 p.2) rest := rfl
    rw [hmerge, ih, mem_keys_objUpsert]
    simp only [List.map_cons, List.mem_cons]
    tauto

theorem detect_of_settingsGives_none (ts mj msj cmj : Option FileData)
    (h : settingsGives ⟨true, ts, mj, msj, cmj⟩ = none) :
    detectMcpConfigurations ⟨true, ts, mj, msj, cmj⟩ =
      detectFromFiles ⟨true, ts, mj, msj, cmj⟩ := by
  rcases ts with _ | fd
  · rfl
  · rcases fd with j | _
    · simp only [settingsGives] at h
      simp only [detectMcpConfigurations]
      cases hg : getField j "mcpServers" with
      | none => rfl
      | some v =>
        rw [hg] at h
        cases htr : isTruthyObject v with
        | false => simp [htr]
        | true => simp [htr] at h
    · rfl

theorem ensureDir_dirExists (t : ConfigDir) : (ensureDir t).dirExists = true := by
  unfold ensureDir
  by_cases h : t.dirExists = true
  · rw [if_pos h]
    exact h
  · rw [if_neg h]
    rfl

theorem getField_of_mcpServersOf_obj {cfg : Json} {m : List (String × Json)}
    (hm : mcpServersOf cfg = Json.obj m) :
    getField cfg "mcpServers" = some (Json.obj m) := by
  unfold mcpServersOf at hm
  cases hg : getField cfg "mcpServers" with
  | none =>
    rw [hg] at hm
    exact Json.noConfusion hm
  | some v =>
    rw [hg, Option.getD_some] at hm
    rw [hm]

theorem detect_after_write (t : ConfigDir) (cfg : Json) (m : List (String × Json))
    (hdir : t.dirExists = true)
    (harr : ∀ xs, t.settings ≠ some (FileData.jsonData (Json.arr xs)))
    (hm : mcpServersOf cfg = Json.obj m) :
    ∃ r, detectMcpConfigurations (writeMcpConfiguration t cfg) = some r ∧
      mcpServersOf r = Json.obj m := by
  have hg := getField_of_mcpServersOf_obj hm
  rcases t with ⟨de, ts, mj, msj, cmj⟩
  have hde : de = true := by simpa using hdir
  subst hde
  rcases ts with _ | fd
  · refine ⟨cfg, ?_, hm⟩
    simp [writeMcpConfiguration, detectMcpConfigurations, detectFromFiles,
      candidateServers, isTruthyObject, hg]
  · rcases fd with j | _
    · cases j with
      | null =>
        refine ⟨cfg, ?_, hm⟩
        have hset : getField (Json.null) "mcpServers" = none := rfl
        simp [writeMcpConfiguration, detectMcpConfigurations, detectFromFiles,
          candidateServers, isTruthyObject, hset, hg]
      | bool b =>
        refine ⟨cfg, ?_, hm⟩
        have hset : getField (Json.bool b) "mcpServers" = none := rfl
        simp [writeMcpConfiguration, detectMcpConfigurations, detectFromFiles,
          candidateServers, isTruthyObject, hset, hg]
      | num n =>
        refine ⟨cfg, ?_, hm⟩
        have hset : getField (Json.num n) "mcpServers" = none := rfl
        simp [writeMcpConfiguration, detectMcpConfigurations, detectFromFiles,
          candidateServers, isTruthyObject, hset, hg]
      | str s =>
        refine ⟨cfg, ?_, hm⟩
        have hset : getField (Json.str s) "mcpServers" = none := rfl
        simp [writeMcpConfiguration, detectMcpConfigurations, detectFromFiles,
          candidateServers, isTruthyObject, hset, hg]
      | arr xs => exact absurd rfl (harr xs)
      | obj fields =>
        refine ⟨Json.obj [("mcpServers", Json.obj m)], ?_, ?_⟩
        · simp [writeMcpConfiguration, detectMcpConfigurations, getField, hm,
            lookup_objUpsert_self, isTruthyObject]
        · simp [mcpServersOf, getField, lookup_cons]
    · refine ⟨cfg, ?_, hm⟩
      simp [writeMcpConfiguration, detectMcpConfigurations, detectFromFiles,
        candidateServers, isTruthyObject, hg]

theorem detect_after_write_single (t : ConfigDir) (m : List (String × Json))
    (hdir : t.dirExists = true)
    (harr : ∀ xs, t.settings ≠ some (FileData.jsonData (Json.arr xs))) :
    detectMcpConfigurations (writeMcpConfiguration t
        (Json.obj [("mcpServers", Json.obj m)])) =
      some (Json.obj [("mcpServers", Json.obj m)]) := by
  have hm : mcpServersOf (Json.obj [("mcpServers", Json.obj m)]) = Json.obj m := by
    simp [mcpServersOf, getField, lookup_cons]
  have hcfg : getField (Json.obj [("mcpServers", Json.obj m)]) "mcpServers" =
      some (Json.obj m) := by
    simp [getField, lookup_cons]
  rcases t with ⟨de, ts, mj, msj, cmj⟩
  have hde : de = true := by simpa using hdir
  subst hde
  rcases ts with _ | fd
  · simp [writeMcpConfiguration, detectMcpConfigurations, detectFromFiles,
      candidateServers, isTruthyObject, hcfg]
  · rcases fd with j | _
    · cases j with
      | null =>
        have hset : getField Json.null "mcpServers" = none := rfl
        simp [writeMcpConfiguration, detectMcpConfigurations, detectFromFiles,
          candidateServers, isTruthyObject, hset, hcfg]
      | bool b =>
        have hset : getField (Json.bool b) "mcpServers" = none := rfl
        simp [writeMcpConfiguration, detectMcpConfigurations, detectFromFiles,
          candidateServers, isTruthyObject, hset, hcfg]
      | num n =>
        have hset : getField (Json.num n) "mcpServers" = none := rfl
        simp [writeMcpConfiguration, detectMcpConfigurations, detectFromFiles,
          candidateServers, isTruthyObject, hset, hcfg]
      | str s =>
        have hset : getField (Json.str s) "mcpServers" = none := rfl
        simp [writeMcpConfiguration, detectMcpConfigurations, detectFromFiles,
          candidateServers, isTruthyObject, hset, hcfg]
      | arr xs => exact absurd rfl (harr xs)
      | obj fields =>
        simp [writeMcpConfiguration, detectMcpConfigurations, getField, hm,
          lookup_objUpsert_self, isTruthyObject]
    · simp [writeMcpConfiguration, detectMcpConfigurations, detectFromFiles,
        candidateServers, isTruthyObject, hcfg]

/-- C2 counterexample: a target whose settings.json parses to a JSON
array defeats the claimed merge.  The default carries map a, the target
carries map b in mcp.json, both are detected, yet the operation returns
the target byte-identical — the array settings.json is rewritten as the
same array, the merged union is dropped, and no standalone file changes —
so no written result holds the union of the two key sets. -/
theorem copy_from_default_merge_counterexample :
    copyMcpServersFromDefault
      ⟨true, none,
       some (FileData.jsonData (Json.obj [("mcpServers",
         Json.obj [("a", Json.str "X")])])),
       none, none⟩
      ⟨true, some (FileData.jsonData (Json.arr [Json.num 1])),
       some (FileData.jsonData (Json.obj [("mcpServers",
         Json.obj [("b", Json.str "Z")])])),
       none, none⟩ =
      Except.ok
        ⟨true, some (FileData.jsonData (Json.arr [Json.num 1])),
         some (FileData.jsonData (Json.obj [("mcpServers",
           Json.obj [("b", Json.str "Z")])])),
         none, none⟩
    ∧ detectMcpConfigurations
        ⟨true, some (FileData.jsonData (Json.arr [Json.num 1])),
         some (FileData.jsonData (Json.obj [("mcpServers",
           Json.obj [("b", Json.str "Z")])])),
         none, none⟩ =
        some (Json.obj [("mcpServers", Json.obj [("b", Json.str "Z")])]) := by
  exact ⟨rfl, rfl⟩

/-- C2 amended.  When the target settings.json (after target creation)
does not parse to a JSON array: if the target has a detectable MCP
configuration with object map T and the default has object map D, the
merged map — union of the key sets, every key of T keeping the target
value — is written and reads back from the target verbatim; if the target
has no detectable configuration, the default configuration is written and
its map reads back unchanged.  When the target settings.json parses to a
JSON array, the program silently drops the map: settings.json is
rewritten as the array and no standalone file is written. -/
theorem copy_from_default_merge_amended :
    (∀ (dd t : ConfigDir) (dj tj : Json) (D T : List (String × Json)),
        detectMcpConfigurations dd = some dj →
        mcpServersOf dj = Json.obj D →
        detectMcpConfigurations (ensureDir t) = some tj →
        mcpServersOf tj = Json.obj T →
        (T.map Prod.fst).Nodup →
        (∀ xs, (ensureDir t).settings ≠ some (FileData.jsonData (Json.arr xs))) →
        copyMcpServersFromDefault dd t =
          Except.ok (writeMcpConfiguration (ensureDir t)
            (Json.obj [("mcpServers", Json.obj (objMerge D T))]))
        ∧ detectMcpConfigurations (writeMcpConfiguration (ensureDir t)
            (Json.obj [("mcpServers", Json.obj (objMerge D T))])) =
            some (Json.obj [("mcpServers", Json.obj (objMerge D T))])
        ∧ (∀ k, (objMerge D T).lookup k = (T.lookup k).orElse (fun _ => D.lookup k))
        ∧ (∀ k, k ∈ (objMerge D T).map Prod.fst ↔
            k ∈ D.map Prod.fst ∨ k ∈ T.map Prod.fst))
    ∧ (∀ (dd t : ConfigDir) (dj : Json) (D : List (String × Json)),
        detectMcpConfigurations dd = some dj →
        mcpServersOf dj = Json.obj D →
        detectMcpConfigurations (ensureDir t) = none →
        (∀ xs, (ensureDir t).settings ≠ some (FileData.jsonData (Json.arr xs))) →
        copyMcpServersFromDefault dd t =
          Except.ok (writeMcpConfiguration (ensureDir t) dj)
        ∧ ∃ r, detectMcpConfigurations (writeMcpConfiguration (ensureDir t) dj) =
            some r ∧ mcpServersOf r = Json.obj D)
    ∧ (∀ (dd t : ConfigDir) (dj : Json) (xs : List Json),
        detectMcpConfigurations dd = some dj →
        (ensureDir t).settings = some (FileData.jsonData (Json.arr xs)) →
        copyMcpServersFromDefault dd t =
          Except.ok { ensureDir t with
            settings := some (FileData.jsonData (Json.arr xs)) }) := by
  refine ⟨?_, ?_, ?_⟩
  · intro dd t dj tj D T hdd hD ht hT hnodup harr
    refine ⟨?_, detect_after_write_single (ensureDir t) (objMerge D T)
        (ensureDir_dirExists t) harr,
      fun k => lookup_objMerge D T hnodup k, fun k => mem_keys_objMerge D T k⟩
    simp only [copyMcpServersFromDefault, hdd, ht, hD, hT, objFields]
  · intro dd t dj D hdd hD ht harr
    refine ⟨?_, detect_after_write (ensureDir t) dj D (ensureDir_dirExists t) harr hD⟩
    simp only [copyMcpServersFromDefault, hdd, ht]
  · intro dd t dj xs hdd hts
    simp only [copyMcpServersFromDefault, hdd]
    cases ht : detectMcpConfigurations (ensureDir t) with
    | some tj => simp only [writeMcpConfiguration, hts]
    | none => simp only [writeMcpConfiguration, hts]

/-- Witness for C2 amended: copying default servers a and b into a target
already holding b in an object settings.json yields the merge in which
the target value of b survives. -/
theorem copy_from_default_merge_amended_witness :
    copyMcpServersFromDefault
      ⟨true, none,
       some (FileData.jsonData (Json.obj [("mcpServers",
         Json.obj [("a", Json.str "X"), ("b", Json.str "Y")])])),
       none, none⟩
      ⟨true,
       some (FileData.jsonData (Json.obj [("mcpServers",
         Json.obj [("b", Json.str "Z")])])),
       none, none, none⟩ =
      Except.ok (writeMcpConfiguration
        (ensureDir ⟨true,
          some (FileData.jsonData (Json.obj [("mcpServers",
            Json.obj [("b", Json.str "Z")])])),
          none, none, none⟩)
        (Json.obj [("mcpServers", Json.obj
          (objMerge [("a", Json.str "X"), ("b", Json.str "Y")] [("b", Json.str "Z")]))]))
    ∧ objMerge [("a", Json.str "X"), ("b", Json.str "Y")] [("b", Json.str "Z")] =
        [("a", Json.str "X"), ("b", Json.str "Z")] := by
  constructor
  · exact (copy_from_default_merge_amended.1
      ⟨true, none,
       some (FileData.jsonData (Json.obj [("mcpServers",
         Json.obj [("a", Json.str "X"), ("b", Json.str "Y")])])),
       none, none⟩
      ⟨true,
       some (FileData.jsonData (Json.obj [("mcpServers",
         Json.obj [("b", Json.str "Z")])])),
       none, none, none⟩
      (Json.obj [("mcpServers", Json.obj [("a", Json.str "X"), ("b", Json.str "Y")])])
      (Json.obj [("mcpServers", Json.obj [("b", Json.str "Z")])])
      [("a", Json.str "X"), ("b", Json.str "Y")] [("b", Json.str "Z")]
      rfl rfl rfl rfl (by simp)
      (by
        intro xs h
        have h' : some (FileData.jsonData (Json.obj [("mcpServers",
            Json.obj [("b", Json.str "Z")])])) =
            some (FileData.jsonData (Json.arr xs)) := h
        injection h' with h1
        injection h1 with h2
        exact Json.noConfusion h2)).1
  · rfl

/-- C9 counterexample: two settings.json contents that parse as JSON but
not as a JSON object defeat the claimed in-place rewrite.  For the
document null, the property assignment throws and the map goes to the
standalone mcp.json, settings.json untouched with no mcpServers key.  For
a JSON array, the assignment succeeds but serialization drops the map:
settings.json is rewritten as the array and no standalone file is
written at all. -/
theorem writeMcp_settings_counterexample :
    (writeMcpConfiguration
        ⟨true, some (FileData.jsonData Json.null), none, none, none⟩
        (Json.obj [("mcpServers", Json.obj [("s", Json.str "v")])])).settings =
      some (FileData.jsonData Json.null)
    ∧ (writeMcpConfiguration
        ⟨true, some (FileData.jsonData Json.null), none, none, none⟩
        (Json.obj [("mcpServers", Json.obj [("s", Json.str "v")])])).mcpJson =
      some (FileData.jsonData (Json.obj [("mcpServers", Json.obj [("s", Json.str "v")])]))
    ∧ getField Json.null "mcpServers" = none
    ∧ writeMcpConfiguration
        ⟨true, some (FileData.jsonData (Json.arr [Json.num 1])), none, none, none⟩
        (Json.obj [("mcpServers", Json.obj [("s", Json.str "v")])]) =
      ⟨true, some (FileData.jsonData (Json.arr [Json.num 1])), none, none, none⟩ := by
  exact ⟨rfl, rfl, rfl, rfl⟩

/-- C9 amended.  Write-back frame property: if the target settings.json
parses as a JSON object, the write rewrites that file with only its
mcpServers key replaced by the given map and every other key unchanged.
If it parses as a JSON array, the property assignment succeeds but
serialization keeps only the index properties: the file is rewritten as
the array, the map is silently dropped, and no standalone file is
written.  If it parses as null or a primitive (the assignment throws and
is caught) or does not parse at all, the configuration is written to the
standalone mcp.json file and settings.json is untouched; if there is no
settings.json, the standalone file is written directly. -/
theorem writeMcp_frame_amended :
    (∀ (t : ConfigDir) (cfg : Json) (fields : List (String × Json)),
        t.settings = some (FileData.jsonData (Json.obj fields)) →
        writeMcpConfiguration t cfg =
          { t with settings := some (FileData.jsonData
              (Json.obj (objUpsert fields "mcpServers" (mcpServersOf cfg)))) }
        ∧ (objUpsert fields "mcpServers" (mcpServersOf cfg)).lookup "mcpServers" =
            some (mcpServersOf cfg)
        ∧ (∀ k, k ≠ "mcpServers" →
            (objUpsert fields "mcpServers" (mcpServersOf cfg)).lookup k = fields.lookup k))
    ∧ (∀ (t : ConfigDir) (cfg : Json) (xs : List Json),
        t.settings = some (FileData.jsonData (Json.arr xs)) →
        writeMcpConfiguration t cfg =
          { t with settings := some (FileData.jsonData (Json.arr xs)) })
    ∧ (∀ (t : ConfigDir) (cfg : Json) (j : Json),
        t.settings = some (FileData.jsonData j) →
        throwsOnAssign j = true →
        writeMcpConfiguration t cfg = { t with mcpJson := some (FileData.jsonData cfg) })
    ∧ (∀ (t : ConfigDir) (cfg : Json),
        t.settings = some FileData.malformed →
        writeMcpConfiguration t cfg = { t with mcpJson := some (FileData.jsonData cfg) })
    ∧ (∀ (t : ConfigDir) (cfg : Json),
        t.settings = none →
        writeMcpConfiguration t cfg = { t with mcpJson := some (FileData.jsonData cfg) }) := by
  refine ⟨?_, ?_, ?_, ?_, ?_⟩
  · intro t cfg fields ht
    refine ⟨?_, lookup_objUpsert_self fields "mcpServers" (mcpServersOf cfg),
      fun k hk => lookup_objUpsert_other fields "mcpServers" k (mcpServersOf cfg) hk⟩
    simp only [writeMcpConfiguration, ht]
  · intro t cfg xs ht
    simp only [writeMcpConfiguration, ht]
  · intro t cfg j ht hthrow
    cases j with
    | null => simp only [writeMcpConfiguration, ht]
    | bool b => simp only [writeMcpConfiguration, ht]
    | num n => simp only [writeMcpConfiguration, ht]
    | str s => simp only [writeMcpConfiguration, ht]
    | arr xs => simp [throwsOnAssign] at hthrow
    | obj fields => simp [throwsOnAssign] at hthrow
  · intro t cfg ht
    simp only [writeMcpConfiguration, ht]
  · intro t cfg ht
    simp only [writeMcpConfiguration, ht]

/-- Witness for C9 amended at a concrete settings object: the extra key
keeps its value and the mcpServers key takes the copied map. -/
theorem writeMcp_frame_amended_witness :
    writeMcpConfiguration
        ⟨true,
         some (FileData.jsonData (Json.obj
           [("model", Json.str "opus"), ("mcpServers", Json.obj [])])),
         none, none, none⟩
        (Json.obj [("mcpServers", Json.obj [("s", Json.str "v")])]) =
      ⟨true,
       some (FileData.jsonData (Json.obj
         (objUpsert [("model", Json.str "opus"), ("mcpServers", Json.obj [])]
           "mcpServers"
           (mcpServersOf (Json.obj [("mcpServers", Json.obj [("s", Json.str "v")])]))))),
       none, none, none⟩ := by
  exact (writeMcp_frame_amended.1
    ⟨true,
     some (FileData.jsonData (Json.obj
       [("model", Json.str "opus"), ("mcpServers", Json.obj [])])),
     none, none, none⟩
    (Json.obj [("mcpServers", Json.obj [("s", Json.str "v")])])
    [("model", Json.str "opus"), ("mcpServers", Json.obj [])] rfl).1

/-- C5.  Detection order and silent skip: settings.json is checked first
and wins when it has a truthy object mcpServers value; a malformed
candidate at any position behaves exactly like an absent one (the parse
failure is swallowed and the next candidate is tried); the standalone
candidates are consulted in the order mcp.json, mcp-servers.json,
claude-mcp.json, first structural match winning; and when no candidate
matches the result is the none value, not an error. -/
theorem detect_order_and_silent_skip (d : ConfigDir) (hd : d.dirExists = true) :
    (∀ s v, d.settings = some (FileData.jsonData s) →
        getField s "mcpServers" = some v → isTruthyObject v = true →
        detectMcpConfigurations d = some (Json.obj [("mcpServers", v)]))
    ∧ (detectMcpConfigurations { d with settings := some FileData.malformed } =
        detectMcpConfigurations { d with settings := none })
    ∧ (detectMcpConfigurations { d with mcpJson := some FileData.malformed } =
        detectMcpConfigurations { d with mcpJson := none })
    ∧ (detectMcpConfigurations { d with mcpServersJson := some FileData.malformed } =
        detectMcpConfigurations { d with mcpServersJson := none })
    ∧ (detectMcpConfigurations { d with claudeMcpJson := some FileData.malformed } =
        detectMcpConfigurations { d with claudeMcpJson := none })
    ∧ (∀ j, settingsGives d = none → candidateServers d.mcpJson = some j →
        detectMcpConfigurations d = some j)
    ∧ (∀ j, settingsGives d = none → candidateServers d.mcpJson = none →
        candidateServers d.mcpServersJson = some j →
        detectMcpConfigurations d = some j)
    ∧ (∀ j, settingsGives d = none → candidateServers d.mcpJson = none →
        candidateServers d.mcpServersJson = none →
        candidateServers d.claudeMcpJson = some j →
        detectMcpConfigurations d = some j)
    ∧ (settingsGives d = none → candidateServers d.mcpJson = none →
        candidateServers d.mcpServersJson = none →
        candidateServers d.claudeMcpJson = none →
        detectMcpConfigurations d = none) := by
  rcases d with ⟨de, ts, mj, msj, cmj⟩
  have hde : de = true := by simpa using hd
  subst hde
  refine ⟨?_, ?_, ?_, ?_, ?_, ?_, ?_, ?_, ?_⟩
  · intro s v hs hv htr
    have hs' : ts = some (FileData.jsonData s) := hs
    subst hs'
    simp [detectMcpConfigurations, hv, htr]
  · rfl
  · rfl
  · rfl
  · rfl
  · intro j hsg hmj
    have hsg' : settingsGives ⟨true, ts, mj, msj, cmj⟩ = none := hsg
    have hmj' : candidateServers mj = some j := hmj
    rw [detect_of_settingsGives_none ts mj msj cmj hsg']
    simp [detectFromFiles, hmj']
  · intro j hsg hmj hmsj
    have hsg' : settingsGives ⟨true, ts, mj, msj, cmj⟩ = none := hsg
    have hmj' : candidateServers mj = none := hmj
    have hmsj' : candidateServers msj = some j := hmsj
    rw [detect_of_settingsGives_none ts mj msj cmj hsg']
    simp [detectFromFiles, hmj', hmsj']
  · intro j hsg hmj hmsj hcmj
    have hsg' : settingsGives ⟨true, ts, mj, msj, cmj⟩ = none := hsg
    have hmj' : candidateServers mj = none := hmj
    have hmsj' : candidateServers msj = none := hmsj
    have hcmj' : candidateServers cmj = some j := hcmj
    rw [detect_of_settingsGives_none ts mj msj cmj hsg']
    simp [detectFromFiles, hmj', hmsj', hcmj']
  · intro hsg hmj hmsj hcmj
    have hsg' : settingsGives ⟨true, ts, mj, msj, cmj⟩ = none := hsg
    have hmj' : candidateServers mj = none := hmj
    have hmsj' : candidateServers msj = none := hmsj
    have hcmj' : candidateServers cmj = none := hcmj
    rw [detect_of_settingsGives_none ts mj msj cmj hsg']
    simp [detectFromFiles, hmj', hmsj', hcmj']

/-- Witness for C5: a malformed settings.json and a malformed mcp.json are
skipped silently and the valid mcp-servers.json wins. -/
theorem detect_order_and_silent_skip_witness :
    detectMcpConfigurations
      ⟨true, some FileData.malformed, some FileData.malformed,
       some (FileData.jsonData (Json.obj [("mcpServers",
         Json.obj [("s", Json.obj [("type", Json.str "http")])])])),
       none⟩ =
      some (Json.obj [("mcpServers",
        Json.obj [("s", Json.obj [("type", Json.str "http")])])]) := by
  exact (detect_order_and_silent_skip
    ⟨true, some FileData.malformed, some FileData.malformed,
     some (FileData.jsonData (Json.obj [("mcpServers",
       Json.obj [("s", Json.obj [("type", Json.str "http")])])])),
     none⟩ rfl).2.2.2.2.2.2.1
    (Json.obj [("mcpServers", Json.obj [("s", Json.obj [("type", Json.str "http")])])])
    rfl rfl rfl

/-- C3 counterexample: a cross-instance copy into a target whose
settings.json parses to a JSON array reports success but writes nothing.
The source map s=src is detected, yet the target keeps its array
settings.json and its old mcp.json map s=tgt — the source's map is not
written to the target's directory. -/
theorem copy_between_instances_counterexample :
    (copyMcpServersBetweenInstances "one" "two"
      ⟨ConfigFile.valid ⟨[⟨"one", "da", "b", "t"⟩, ⟨"two", "db", "b", "t"⟩], "1.0.0"⟩,
       fun p =>
         if p = "da" then
           ⟨true, none,
            some (FileData.jsonData (Json.obj [("mcpServers",
              Json.obj [("s", Json.str "src")])])),
            none, none⟩
         else
           ⟨true, some (FileData.jsonData (Json.arr [Json.num 1])),
            some (FileData.jsonData (Json.obj [("mcpServers",
              Json.obj [("s", Json.str "tgt")])])),
            none, none⟩⟩).1 = Except.ok ()
    ∧ ((copyMcpServersBetweenInstances "one" "two"
      ⟨ConfigFile.valid ⟨[⟨"one", "da", "b", "t"⟩, ⟨"two", "db", "b", "t"⟩], "1.0.0"⟩,
       fun p =>
         if p = "da" then
           ⟨true, none,
            some (FileData.jsonData (Json.obj [("mcpServers",
              Json.obj [("s", Json.str "src")])])),
            none, none⟩
         else
           ⟨true, some (FileData.jsonData (Json.arr [Json.num 1])),
            some (FileData.jsonData (Json.obj [("mcpServers",
              Json.obj [("s", Json.str "tgt")])])),
            none, none⟩⟩).2.dirs "db").settings =
        some (FileData.jsonData (Json.arr [Json.num 1]))
    ∧ ((copyMcpServersBetweenInstances "one" "two"
      ⟨ConfigFile.valid ⟨[⟨"one", "da", "b", "t"⟩, ⟨"two", "db", "b", "t"⟩], "1.0.0"⟩,
       fun p =>
         if p = "da" then
           ⟨true, none,
            some (FileData.jsonData (Json.obj [("mcpServers",
              Json.obj [("s", Json.str "src")])])),
            none, none⟩
         else
           ⟨true, some (FileData.jsonData (Json.arr [Json.num 1])),
            some (FileData.jsonData (Json.obj [("mcpServers",
              Json.obj [("s", Json.str "tgt")])])),
            none, none⟩⟩).2.dirs "db").mcpJson =
        some (FileData.jsonData (Json.obj [("mcpServers",
          Json.obj [("s", Json.str "tgt")])])) := by
  exact ⟨rfl, rfl, rfl⟩

/-- C3 amended.  Cross-instance MCP copy on a parsed registry: a missing
source or target name fails with the not-found error naming that side; a
source instance with no detectable MCP configuration fails with the
not-found error; otherwise the source configuration goes through the
write-back policy against the target directory with no merge — and
whenever the target settings.json does not parse to a JSON array, the map
read back from the target afterwards is exactly the source's map,
overwriting any same-named entries the target held before; on an
array-valued settings.json the write is silently dropped. -/
theorem copy_between_instances_amended (srcName tgtName : String) (c : Config)
    (dirs : String → ConfigDir) :
    (c.instances.find? (fun i => i.name == srcName) = none →
        copyMcpServersBetweenInstances srcName tgtName ⟨ConfigFile.valid c, dirs⟩ =
          (Except.error (McpError.sourceInstanceNotFound srcName),
           ⟨ConfigFile.valid c, dirs⟩))
    ∧ (∀ src, c.instances.find? (fun i => i.name == srcName) = some src →
        c.instances.find? (fun i => i.name == tgtName) = none →
        copyMcpServersBetweenInstances srcName tgtName ⟨ConfigFile.valid c, dirs⟩ =
          (Except.error (McpError.targetInstanceNotFound tgtName),
           ⟨ConfigFile.valid c, dirs⟩))
    ∧ (∀ src tgt, c.instances.find? (fun i => i.name == srcName) = some src →
        c.instances.find? (fun i => i.name == tgtName) = some tgt →
        detectMcpConfigurations (dirs src.configDir) = none →
        copyMcpServersBetweenInstances srcName tgtName ⟨ConfigFile.valid c, dirs⟩ =
          (Except.error (McpError.noInstanceMcp srcName),
           ⟨ConfigFile.valid c, dirs⟩))
    ∧ (∀ src tgt srcMcp, c.instances.find? (fun i => i.name == srcName) = some src →
        c.instances.find? (fun i => i.name == tgtName) = some tgt →
        detectMcpConfigurations (dirs src.configDir) = some srcMcp →
        copyMcpServersBetweenInstances srcName tgtName ⟨ConfigFile.valid c, dirs⟩ =
          (Except.ok (),
           ⟨ConfigFile.valid c, fun p =>
              if p = tgt.configDir
              then writeMcpConfiguration (dirs tgt.configDir) srcMcp
              else dirs p⟩))
    ∧ (∀ src tgt srcMcp (M : List (String × Json)),
        c.instances.find? (fun i => i.name == srcName) = some src →
        c.instances.find? (fun i => i.name == tgtName) = some tgt →
        detectMcpConfigurations (dirs src.configDir) = some srcMcp →
        mcpServersOf srcMcp = Json.obj M →
        (dirs tgt.configDir).dirExists = true →
        (∀ xs, (dirs tgt.configDir).settings ≠ some (FileData.jsonData (Json.arr xs))) →
        ∃ r, detectMcpConfigurations
            (writeMcpConfiguration (dirs tgt.configDir) srcMcp) = some r
          ∧ mcpServersOf r = Json.obj M) := by
  refine ⟨?_, ?_, ?_, ?_, ?_⟩
  · intro hsrc
    simp [copyMcpServersBetweenInstances, getInstance, loadConfig, hsrc]
  · intro src hsrc htgt
    simp [copyMcpServersBetweenInstances, getInstance, loadConfig, hsrc, htgt]
  · intro src tgt hsrc htgt hdet
    simp [copyMcpServersBetweenInstances, getInstance, loadConfig, hsrc, htgt, hdet]
  · intro src tgt srcMcp hsrc htgt hdet
    simp [copyMcpServersBetweenInstances, getInstance, loadConfig, hsrc, htgt, hdet]
  · intro src tgt srcMcp M hsrc htgt hdet hM hdir harr
    exact detect_after_write (dirs tgt.configDir) srcMcp M hdir harr hM

/-- Witness for C3 amended at a concrete registry and directories: the
source map replaces the target map wholesale. -/
theorem copy_between_instances_amended_witness :
    copyMcpServersBetweenInstances "one" "two"
      ⟨ConfigFile.valid ⟨[⟨"one", "da", "b", "t"⟩, ⟨"two", "db", "b", "t"⟩], "1.0.0"⟩,
       fun p =>
         if p = "da" then
           ⟨true, none,
            some (FileData.jsonData (Json.obj [("mcpServers",
              Json.obj [("s", Json.str "src")])])),
            none, none⟩
         else
           ⟨true,
            some (FileData.jsonData (Json.obj [("mcpServers",
              Json.obj [("s", Json.str "tgt")])])),
            none, none, none⟩⟩ =
      (Except.ok (),
       ⟨ConfigFile.valid ⟨[⟨"one", "da", "b", "t"⟩, ⟨"two", "db", "b", "t"⟩], "1.0.0"⟩,
        fun p =>
          if p = "db"
          then writeMcpConfiguration
            ((fun q =>
              if q = "da" then
                ⟨true, none,
                 some (FileData.jsonData (Json.obj [("mcpServers",
                   Json.obj [("s", Json.str "src")])])),
                 none, none⟩
              else
                (⟨true,
                  some (FileData.jsonData (Json.obj [("mcpServers",
                    Json.obj [("s", Json.str "tgt")])])),
                  none, none, none⟩ : ConfigDir)) "db")
            (Json.obj [("mcpServers", Json.obj [("s", Json.str "src")])])
          else
            (fun q =>
              if q = "da" then
                ⟨true, none,
                 some (FileData.jsonData (Json.obj [("mcpServers",
                   Json.obj [("s", Json.str "src")])])),
                 none, none⟩
              else
                (⟨true,
                  some (FileData.jsonData (Json.obj [("mcpServers",
                    Json.obj [("s", Json.str "tgt")])])),
                  none, none, none⟩ : ConfigDir)) p⟩) := by
  exact (copy_between_instances_amended "one" "two"
    ⟨[⟨"one", "da", "b", "t"⟩, ⟨"two", "db", "b", "t"⟩], "1.0.0"⟩
    (fun p =>
      if p = "da" then
        ⟨true, none,
         some (FileData.jsonData (Json.obj [("mcpServers",
           Json.obj [("s", Json.str "src")])])),
         none, none⟩
      else
        (⟨true,
          some (FileData.jsonData (Json.obj [("mcpServers",
            Json.obj [("s", Json.str "tgt")])])),
          none, none, none⟩ : ConfigDir))).2.2.2.1
    ⟨"one", "da", "b", "t"⟩ ⟨"two", "db", "b", "t"⟩
    (Json.obj [("mcpServers", Json.obj [("s", Json.str "src")])])
    rfl rfl rfl

/-
Full-tree copy model (copyAllFromDefault in src/config.ts).  A directory
tree is a nested inductive value; the recursive copy into an initially
empty target produces the source tree filtered by the exclusion list at
every directory level, with file contents byte-copied unchanged.
-/

/-- A file-system subtree: a file with its byte content, or a directory
with its named entries in readdir order. -/
inductive FsTree where
  | file (content : String)
  | dir (entries : List (String × FsTree))

/-- The excludeFiles denylist of copyAllFromDefault (config.ts). -/
def excludeFiles : List String :=
  ["config.json", ".config.json", "history.jsonl", "debug", "session-env",
   "todos", "file-history", "shell-snapshots", "statsig"]

mutual

/-- The copyRecursive helper of copyAllFromDefault: files are copied
unchanged, directories are rebuilt from their non-excluded entries. -/
def copyFiltered : FsTree → FsTree
  | FsTree.file c => FsTree.file c
  | FsTree.dir es => FsTree.dir (copyEntries es)

/-- The entry loop of copyRecursive: an excluded name is skipped, any
other entry is copied recursively. -/
def copyEntries : List (String × FsTree) → List (String × FsTree)
  | [] => []
  | (n, t) :: rest =>
    if excludeFiles.contains n then copyEntries rest
    else (n, copyFiltered t) :: copyEntries rest

end

/-- Error raised when the default directory does not exist. -/
inductive CopyError where
  | sourceNotFound
deriving DecidableEq, Repr

/-- copyAllFromDefault (config.ts): throws when the default Claude
directory is missing, otherwise produces the filtered copy of its tree in
the freshly created target. -/
def copyAllFromDefault (defaultDir : Option FsTree) : Except CopyError FsTree :=
  match defaultDir with
  | none => Except.error CopyError.sourceNotFound
  | some t => Except.ok (copyFiltered t)

/-- Resolution of a relative path inside a tree. -/
def pathLookup : List String → FsTree → Option FsTree
  | [], t => some t
  | n :: rest, FsTree.dir es =>
    match es.lookup n with
    | some t => pathLookup rest t
    | none => none
  | _ :: _, FsTree.file _ => none

theorem lookup_copyEntries (es : List (String × FsTree)) (n : String) :
    (copyEntries es).lookup n =
      if excludeFiles.contains n then none
      else (es.lookup n).map copyFiltered := by
  induction es with
  | nil =>
    simp only [copyEntries, List.lookup_nil, Option.map_none']
    rw [ite_self]
  | cons p rest ih =>
    rcases p with ⟨m, t⟩
    simp only [copyEntries]
    by_cases hn : n = m
    · subst hn
      by_cases hm : excludeFiles.contains n = true
      · have hmem : n ∈ excludeFiles := List.elem_iff.mp hm
        simp [hmem, hm, ih]
      · have hmem : n ∉ excludeFiles := fun hc => hm (List.elem_iff.mpr hc)
        simp [hmem, lookup_cons]
    · have hnm : (n == m) = false := beq_eq_false_iff_ne.mpr hn
      by_cases hm : excludeFiles.contains m = true
      · have hmem : m ∈ excludeFiles := List.elem_iff.mp hm
        simp [hmem, hnm, lookup_cons, ih]
      · have hmem : m ∉ excludeFiles := fun hc => hm (List.elem_iff.mpr hc)
        simp [hmem, hnm, lookup_cons, ih]

theorem pathLookup_copyFiltered (path : List String) (t : FsTree) :
    pathLookup path (copyFiltered t) =
      if path.all (fun n => ! excludeFiles.contains n) then
        (pathLookup path t).map copyFiltered
      else none := by
  induction path generalizing t with
  | nil => simp [pathLookup]
  | cons n rest ih =>
    cases t with
    | file c => simp [copyFiltered, pathLookup]
    | dir es =>
      simp only [copyFiltered, pathLookup, lookup_copyEntries]
      by_cases hmem : n ∈ excludeFiles
      · simp [hmem]
      · cases hL : es.lookup n with
        | none => simp [hmem, hL]
        | some t1 => simp [hmem, hL, ih t1]

theorem all_not_contains_iff (path : List String) :
    (path.all (fun n => ! excludeFiles.contains n) = true) ↔
      ∀ n ∈ path, n ∉ excludeFiles := by
  rw [List.all_eq_true]
  constructor
  · intro h n hn hmem
    have hx := h n hn
    have hc : excludeFiles.contains n = true := List.elem_iff.mpr hmem
    rw [hc] at hx
    simp at hx
  · intro h n hn
    have hc : excludeFiles.contains n = false :=
      bool_eq_false_of_ne_true (fun hc => h n hn (List.elem_iff.mp hc))
    rw [hc]
    rfl

theorem copyFiltered_eq_file {t : FsTree} {c : String}
    (h : copyFiltered t = FsTree.file c) : t = FsTree.file c := by
  cases t with
  | file c1 =>
    rw [copyFiltered] at h
    exact h
  | dir es =>
    rw [copyFiltered] at h
    cases h

/-- C6.  Full-tree copy exclusion: copying fails with the
source-not-found error exactly when the default directory is absent; and
a file appears at a relative path in the copied target, with identical
content, exactly when it is at that path in the source and no component
of the path is a denylisted name — so a denylisted name is dropped at
every directory level it occurs at, not only at the top. -/
theorem copyAll_exclusion :
    copyAllFromDefault none = Except.error CopyError.sourceNotFound
    ∧ (∀ src : FsTree, copyAllFromDefault (some src) = Except.ok (copyFiltered src))
    ∧ (∀ (src : FsTree) (path : List String) (content : String),
        pathLookup path (copyFiltered src) = some (FsTree.file content) ↔
          pathLookup path src = some (FsTree.file content)
          ∧ ∀ n ∈ path, n ∉ excludeFiles) := by
  refine ⟨rfl, fun src => rfl, ?_⟩
  intro src path content
  rw [pathLookup_copyFiltered]
  by_cases hall : ∀ n ∈ path, n ∉ excludeFiles
  · rw [if_pos ((all_not_contains_iff path).mpr hall)]
    constructor
    · intro h
      rcases Option.map_eq_some'.mp h with ⟨t1, ht1, hcopy⟩
      exact ⟨(copyFiltered_eq_file hcopy) ▸ ht1, hall⟩
    · intro h
      rw [h.1]
      rfl
  · rw [if_neg (fun hb => hall ((all_not_contains_iff path).mp hb))]
    constructor
    · intro h
      cases h
    · rintro ⟨-, hmem⟩
      exact absurd hmem hall

/-- Witness for C6 at a concrete tree: history.jsonl and a nested debug
directory are dropped, an ordinary nested file survives unchanged. -/
theorem copyAll_exclusion_witness :
    (pathLookup ["sub", "keep.txt"]
      (copyFiltered (FsTree.dir
        [("history.jsonl", FsTree.file "h"),
         ("sub", FsTree.dir
           [("debug", FsTree.dir [("log.txt", FsTree.file "d")]),
            ("keep.txt", FsTree.file "data")])])) =
      some (FsTree.file "data"))
    ∧ pathLookup ["sub", "debug", "log.txt"]
        (copyFiltered (FsTree.dir
          [("history.jsonl", FsTree.file "h"),
           ("sub", FsTree.dir
             [("debug", FsTree.dir [("log.txt", FsTree.file "d")]),
              ("keep.txt", FsTree.file "data")])])) ≠
        some (FsTree.file "d") := by
  constructor
  · exact (copyAll_exclusion.2.2 (FsTree.dir
      [("history.jsonl", FsTree.file "h"),
       ("sub", FsTree.dir
         [("debug", FsTree.dir [("log.txt", FsTree.file "d")]),
          ("keep.txt", FsTree.file "data")])])
      ["sub", "keep.txt"] "data").mpr
      ⟨rfl, by decide⟩
  · intro h
    have := (copyAll_exclusion.2.2 (FsTree.dir
      [("history.jsonl", FsTree.file "h"),
       ("sub", FsTree.dir
         [("debug", FsTree.dir [("log.txt", FsTree.file "d")]),
          ("keep.txt", FsTree.file "data")])])
      ["sub", "debug", "log.txt"] "d").mp h
    have hd := this.2 "debug" (by decide)
    exact hd (by decide)

/-
Provider template store (src/templates.ts).  The static template record
is an ordered association list keyed by lowercase provider name; lookups
lowercase the requested name first.
-/

/-- The settings overlay of one provider template. -/
structure TemplateSettings where
  env : List (String × String)
  includeCoAuthoredBy : Bool
  alwaysThinkingEnabled : Bool
deriving DecidableEq, Repr

/-- One provider template (interface ProviderTemplate in templates.ts). -/
structure ProviderTemplate where
  name : String
  displayName : String
  description : String
  settings : TemplateSettings
deriving DecidableEq, Repr

/-- The static PROVIDER_TEMPLATES record (templates.ts), in source order. -/
def PROVIDER_TEMPLATES : List (String × ProviderTemplate) :=
  [("glm",
    ⟨"glm", "GLM (智谱AI)", "GLM-4.5 and GLM-4.6 models via z.ai",
     ⟨[("ANTHROPIC_AUTH_TOKEN", ""),
       ("ANTHROPIC_BASE_URL", "https://api.z.ai/api/anthropic"),
       ("API_TIMEOUT_MS", "3000000"),
       ("ANTHROPIC_DEFAULT_HAIKU_MODEL", "glm-4.5-air"),
       ("ANTHROPIC_DEFAULT_SONNET_MODEL", "glm-4.6"),
       ("ANTHROPIC_DEFAULT_OPUS_MODEL", "glm-4.6"),
       ("ANTHROPIC_MODEL", "glm-4.6"),
       ("ANTHROPIC_SMALL_FAST_MODEL", "glm-4.6-air"),
       ("ENABLE_THINKING", "true"),
       ("REASONING_EFFORT", "high"),
       ("MAX_THINKING_TOKENS", "8000"),
       ("ENABLE_STREAMING", "true"),
       ("MAX_OUTPUT_TOKENS", "64000")],
      false, false⟩⟩),
   ("minimax",
    ⟨"minimax", "MiniMax", "MiniMax-M2 model via minimax.io",
     ⟨[("ANTHROPIC_AUTH_TOKEN", ""),
       ("ANTHROPIC_BASE_URL", "https://api.minimax.io/anthropic"),
       ("API_TIMEOUT_MS", "3000000"),
       ("CLAUDE_CODE_DISABLE_NONESSENTIAL_TRAFFIC", "1"),
       ("ANTHROPIC_MODEL", "MiniMax-M2"),
       ("ANTHROPIC_SMALL_FAST_MODEL", "MiniMax-M2"),
       ("ANTHROPIC_DEFAULT_SONNET_MODEL", "MiniMax-M2"),
       ("ANTHROPIC_DEFAULT_OPUS_MODEL", "MiniMax-M2"),
       ("ANTHROPIC_DEFAULT_HAIKU_MODEL", "MiniMax-M2")],
      false, true⟩⟩)]

/-- Single-character mapping of String.prototype.toLowerCase.  The
template keys and every character whose case matters here are ASCII, so
the mapping is the ASCII uppercase-to-lowercase shift. -/
def jsCharToLower (c : Char) : Char :=
  if 65 ≤ c.toNat ∧ c.toNat ≤ 90 then Char.ofNat (c.toNat + 32) else c

/-- The name.toLowerCase() call, applied character by character. -/
def jsToLowerCase (s : String) : String :=
  ⟨s.data.map jsCharToLower⟩

/-- Property keys that a plain object literal inherits from
Object.prototype, visible to the JS `in` operator and to bracket
access. -/
def OBJECT_PROTOTYPE_KEYS : List String :=
  ["constructor", "hasOwnProperty", "isPrototypeOf", "propertyIsEnumerable",
   "toLocaleString", "toString", "valueOf", "__defineGetter__",
   "__defineSetter__", "__lookupGetter__", "__lookupSetter__", "__proto__"]

/-- Outcome of bracket access on the PROVIDER_TEMPLATES record: an own
entry yields its template; a key of Object.prototype yields the inherited
function or accessor (not a template, despite the declared Record type);
any other key yields undefined. -/
inductive TemplateLookup where
  | own (t : ProviderTemplate)
  | inherited
  | undef
deriving DecidableEq, Repr

/-- getProviderTemplate (templates.ts): index the record at the
lowercased name; bracket access falls back to the prototype chain when
the key is not an own property. -/
def getProviderTemplate (name : String) : TemplateLookup :=
  match PROVIDER_TEMPLATES.lookup (jsToLowerCase name) with
  | some t => TemplateLookup.own t
  | none =>
    if OBJECT_PROTOTYPE_KEYS.contains (jsToLowerCase name) then TemplateLookup.inherited
    else TemplateLookup.undef

/-- hasProviderTemplate (templates.ts): the JS `in` test on the record at
the lowercased name; `in` also sees the properties inherited from
Object.prototype. -/
def hasProviderTemplate (name : String) : Bool :=
  PROVIDER_TEMPLATES.any (fun p => p.1 == jsToLowerCase name)
  || OBJECT_PROTOTYPE_KEYS.contains (jsToLowerCase name)

theorem jsCharToLower_idem (c : Char) :
    jsCharToLower (jsCharToLower c) = jsCharToLower c := by
  by_cases h : 65 ≤ c.toNat ∧ c.toNat ≤ 90
  · have h2 : 65 ≤ c.val.toNat ∧ c.val.toNat ≤ 90 := h
    have h1 : jsCharToLower c = Char.ofNat (c.toNat + 32) := by
      unfold jsCharToLower
      rw [if_pos h]
    have hval : (Char.ofNat (c.toNat + 32)).toNat = c.toNat + 32 := by
      unfold Char.ofNat Char.toNat
      rw [dif_pos]
      · rfl
      · unfold Nat.isValidChar
        left
        omega
    rw [h1]
    unfold jsCharToLower
    rw [if_neg]
    rw [hval]
    omega
  · have h1 : jsCharToLower c = c := by
      unfold jsCharToLower
      rw [if_neg h]
    rw [h1, h1]

theorem jsToLowerCase_idem (s : String) :
    jsToLowerCase (jsToLowerCase s) = jsToLowerCase s := by
  unfold jsToLowerCase
  simp only [List.map_map]
  congr 1
  apply List.map_congr_left
  intro c _
  exact jsCharToLower_idem c

/-- C10 counterexample: the JS `in` operator sees properties inherited
from Object.prototype, so hasProviderTemplate answers true on the name
constructor although it is not a key of the template table — the claimed
biconditional with own-key membership is false. -/
theorem provider_template_prototype_counterexample :
    hasProviderTemplate "constructor" = true
    ∧ "constructor" ∉ PROVIDER_TEMPLATES.map Prod.fst := by
  refine ⟨rfl, ?_⟩
  decide

/-- C10 amended.  Provider template lookup is case-insensitive: both
getProviderTemplate and hasProviderTemplate behave on any name exactly as
on its lowercased form; hasProviderTemplate is true exactly when the
lowercased name is an own key of the template table or a property
inherited from Object.prototype (the JS `in` operator traverses the
prototype chain); and GLM and glm resolve to the same own template. -/
theorem provider_template_case_insensitive_amended :
    (∀ name : String,
        getProviderTemplate name = getProviderTemplate (jsToLowerCase name))
    ∧ (∀ name : String,
        hasProviderTemplate name = hasProviderTemplate (jsToLowerCase name))
    ∧ (∀ name : String,
        hasProviderTemplate name = true ↔
          (jsToLowerCase name ∈ PROVIDER_TEMPLATES.map Prod.fst
           ∨ jsToLowerCase name ∈ OBJECT_PROTOTYPE_KEYS))
    ∧ getProviderTemplate "GLM" = getProviderTemplate "glm"
    ∧ (∃ t, getProviderTemplate "glm" = TemplateLookup.own t) := by
  refine ⟨?_, ?_, ?_, ?_, ?_⟩
  · intro name
    unfold getProviderTemplate
    rw [jsToLowerCase_idem]
  · intro name
    unfold hasProviderTemplate
    rw [jsToLowerCase_idem]
  · intro name
    unfold hasProviderTemplate
    rw [Bool.or_eq_true]
    constructor
    · rintro (h | h)
      · rcases List.any_eq_true.mp h with ⟨p, hp, hpk⟩
        exact Or.inl (List.mem_map.mpr ⟨p, hp, beq_iff_eq.mp hpk⟩)
      · exact Or.inr (List.elem_iff.mp h)
    · rintro (h | h)
      · rcases List.mem_map.mp h with ⟨p, hp, hpk⟩
        exact Or.inl (List.any_eq_true.mpr ⟨p, hp, beq_iff_eq.mpr hpk⟩)
      · exact Or.inr (List.elem_iff.mpr h)
  · rfl
  · exact ⟨_, rfl⟩

end ClaudeMulti
